import Mathlib

/-!
Verification of the sparklinkAI retrieval-augmented chat backend.

This file gives a shallow embedding, in Lean 4, of the algorithmic core of the
repository (vector upsert and search, the intelligent search decision engine,
result fusion and ranking, the streaming chat coordinator, conversation
history persistence, and the document chunker), translated directly from the
Python sources, together with theorems settling the specification claims.

Conventions of the embedding:
* Python floats are modelled as rationals.
* Python lists are Lean lists; the stable Python sort is List.mergeSort.
* State touched by a method (the Milvus collection, the chat_messages table)
  is passed explicitly and returned updated.
* A Python exception escaping the modelled fragment is an Option.none result;
  an exception swallowed by a try/except block inside the fragment is encoded
  by the behaviour of the corresponding except branch.
-/

namespace SparklinkAI

/-! ## Python string primitives

Helpers mirroring the Python string operations used by the sources:
str.strip, str.lower, slicing, and whitespace tests.
-/

/-- Whitespace recognised by Python str.strip and the regex class \s
(space, tab, newline, carriage return, vertical tab, form feed). -/
def pyIsSpace (c : Char) : Bool :=
  c == ' ' || c == '\t' || c == '\n' || c == '\r' || c == '\x0b' || c == '\x0c'

/-- Python str.strip on a character list: drop whitespace from both ends. -/
def stripChars (l : List Char) : List Char :=
  ((l.dropWhile pyIsSpace).reverse.dropWhile pyIsSpace).reverse

/-- Python str.strip. -/
def pyStrip (s : String) : String :=
  String.mk (stripChars s.data)

/-- Python str.lower (per-character lowering, as used on dedup keys). -/
def pyLower (s : String) : String :=
  String.mk (s.data.map Char.toLower)

/-- Python s[:n] (prefix of at most n characters). -/
def pyTakeChars (n : Nat) (s : String) : String :=
  String.mk (s.data.take n)

/-- Python s[-n:] for n greater than 0 (suffix of at most n characters). -/
def pyLastChars (n : Nat) (s : String) : String :=
  String.mk (s.data.drop (s.data.length - n))

/-- Python len(s) in characters. -/
def pyLen (s : String) : Nat :=
  s.data.length

theorem dropWhile_pyIsSpace_idem (l : List Char) :
    List.dropWhile pyIsSpace (List.dropWhile pyIsSpace l) = List.dropWhile pyIsSpace l := by
  induction l with
  | nil => rfl
  | cons c t ih =>
    by_cases h : pyIsSpace c
    · simp [List.dropWhile_cons, h, ih]
    · simp [List.dropWhile_cons, h]

theorem head?_dropWhile_fails (p : Char → Bool) (l : List Char) {c : Char} {t : List Char}
    (h : List.dropWhile p l = c :: t) : p c = false := by
  induction l with
  | nil => simp [List.dropWhile] at h
  | cons a s ih =>
    by_cases ha : p a
    · rw [List.dropWhile_cons_of_pos ha] at h
      exact ih h
    · rw [List.dropWhile_cons_of_neg ha] at h
      cases h
      exact Bool.of_not_eq_true ha

theorem getLast?_dropWhile (p : Char → Bool) (l : List Char) :
    List.dropWhile p l = [] ∨ (List.dropWhile p l).getLast? = l.getLast? := by
  induction l with
  | nil => exact Or.inl rfl
  | cons a s ih =>
    by_cases ha : p a
    · rw [List.dropWhile_cons_of_pos ha]
      rcases ih with h | h
      · exact Or.inl h
      · cases s with
        | nil => exact Or.inl rfl
        | cons b u => exact Or.inr (by rw [h, List.getLast?_cons_cons])
    · rw [List.dropWhile_cons_of_neg ha]
      exact Or.inr rfl

theorem stripChars_idem (l : List Char) : stripChars (stripChars l) = stripChars l := by
  unfold stripChars
  set y := List.dropWhile pyIsSpace (List.dropWhile pyIsSpace l).reverse with hy
  have hyhead : ∀ c t, y = c :: t → pyIsSpace c = false := fun c t h =>
    head?_dropWhile_fails pyIsSpace _ h
  have hylast : y.getLast? = Option.none ∨ ∀ c, y.getLast? = some c → pyIsSpace c = false := by
    rcases getLast?_dropWhile pyIsSpace (List.dropWhile pyIsSpace l).reverse with h | h
    · exact Or.inl (by rw [hy, h]; rfl)
    · right
      intro c hc
      rw [hy, h, List.getLast?_reverse] at hc
      cases hdw : List.dropWhile pyIsSpace l with
      | nil => rw [hdw] at hc; simp at hc
      | cons d u =>
        rw [hdw] at hc
        simp at hc
        rw [← hc]
        exact head?_dropWhile_fails pyIsSpace l hdw
  have step1 : List.dropWhile pyIsSpace y.reverse.reverse = y := by
    rw [List.reverse_reverse]
    cases hcase : y with
    | nil => rfl
    | cons c t => rw [List.dropWhile_cons_of_neg (by rw [hyhead c t hcase]; simp)]
  have step2 : List.dropWhile pyIsSpace y.reverse = y.reverse := by
    cases hrev : y.reverse with
    | nil => rfl
    | cons c t =>
      have hcy : y.getLast? = some c := by
        rw [← List.head?_reverse, hrev]; rfl
      rcases hylast with hnil | hlast
      · rw [hnil] at hcy; cases hcy
      · rw [List.dropWhile_cons_of_neg (by rw [hlast c hcy]; simp)]
  calc ((List.dropWhile pyIsSpace
          (List.dropWhile pyIsSpace y.reverse).reverse)).reverse
      = (List.dropWhile pyIsSpace y.reverse.reverse).reverse := by rw [step2]
    _ = y.reverse := by rw [step1]

theorem pyStrip_idem (s : String) : pyStrip (pyStrip s) = pyStrip s := by
  unfold pyStrip
  rw [stripChars_idem]

/-! ## Vector store model (services/vector_service.py)

The Milvus collection is modelled as a list of records.  Only the fields
relevant to the claims are kept; the embedding vector itself plays no role in
the replace/delete logic.
-/

/-- One row of the Milvus collection (VectorService schema). -/
structure VecRecord where
  id : String
  doc_id : String
  chunk_content : String
deriving Repr, DecidableEq

/-- VectorService.insert_vector_async: before inserting the single new record,
every record sharing the (non-empty) doc_id is deleted from the collection —
including records inserted for earlier chunks of the same document. -/
def insertVectorAsync (collection : List VecRecord) (vector_id doc_id chunk_content : String) :
    List VecRecord :=
  let cleared :=
    if doc_id ≠ "" then collection.filter (fun r => r.doc_id != doc_id) else collection
  cleared ++ [⟨vector_id, doc_id, chunk_content⟩]

/-- VectorService.delete_vectors_by_doc_id: delete every record of the doc. -/
def deleteVectorsByDocId (collection : List VecRecord) (doc_id : String) : List VecRecord :=
  collection.filter (fun r => r.doc_id != doc_id)

/-- The per-chunk ingestion loop used by every caller of insert_vector
(services/tasks/embedding_tasks.py, services/knowledge_service.py, the test
scripts): one insert_vector_async call per chunk, all sharing the doc id. -/
def ingestDocument (collection : List VecRecord) (doc_id : String)
    (chunks : List (String × String)) : List VecRecord :=
  chunks.foldl (fun col c => insertVectorAsync col c.1 doc_id c.2) collection

/-- Vectors of a document visible to search (the doc_id filter used by
queries). -/
def queryByDocId (collection : List VecRecord) (doc_id : String) : List VecRecord :=
  collection.filter (fun r => r.doc_id == doc_id)

/-- C1: ingesting a two-chunk document under doc id d1 and re-ingesting two
chunks under the same doc id leaves exactly one queryable vector, not the
second ingestion's chunk count (two): each per-chunk insert first deletes all
vectors of the doc id, wiping the sibling chunk of its own ingestion. -/
theorem c1_vector_replace_failing_eval :
    queryByDocId
        (ingestDocument
          (ingestDocument [] "d1" [("v1", "chunk one"), ("v2", "chunk two")])
          "d1" [("v3", "chunk three"), ("v4", "chunk four")])
        "d1"
      = [⟨"v4", "d1", "chunk four"⟩] ∧ (1 : Nat) ≠ 2 := by
  exact ⟨by decide, by decide⟩

/-! ## Vector search post-processing (VectorService.search_vectors_async) -/

/-- One raw hit as returned by the Milvus search call, before the service
applies its threshold filter and sort. -/
structure RawHit where
  id : String
  score : ℚ
  content : String
deriving Repr, DecidableEq

/-- The post-processing loop of VectorService.search_vectors_async: skip every
hit with score below the similarity threshold, then sort the survivors by
score in descending order (Python stable sort). -/
def processSearchResults (hits : List RawHit) (similarity_threshold : ℚ) : List RawHit :=
  (hits.filter (fun h => !(decide (h.score < similarity_threshold)))).mergeSort
    (fun a b => decide (b.score ≤ a.score))

/-- C10: every hit returned by the vector search scores at least the
similarity threshold, and the returned list is sorted in descending score
order. -/
theorem c10_search_vectors_postcondition (hits : List RawHit) (t : ℚ) :
    (∀ h ∈ processSearchResults hits t, t ≤ h.score) ∧
    (processSearchResults hits t).Pairwise (fun a b => b.score ≤ a.score) := by
  constructor
  · intro h hm
    have hmem : h ∈ hits.filter (fun h => !(decide (h.score < t))) :=
      List.mem_mergeSort.mp hm
    have hflt := List.of_mem_filter hmem
    simp only [Bool.not_eq_true', decide_eq_false_iff_not, not_lt] at hflt
    exact hflt
  · have hs := @List.sorted_mergeSort RawHit
      (fun a b : RawHit => decide (b.score ≤ a.score))
      (by
        intro a b c hab hbc
        simp only [decide_eq_true_eq] at hab hbc ⊢
        exact le_trans hbc hab)
      (by
        intro a b
        simp only [Bool.or_eq_true, decide_eq_true_eq]
        exact le_total b.score a.score)
      (hits.filter (fun h => !(decide (h.score < t))))
    exact hs.imp (fun h => of_decide_eq_true h)

/-! ## Result fusion and ranking (utils/pocketflow.py, PocketFlow) -/

/-- One retrieval hit (knowledge base or web), as fed to the fusion step
and to the decision engine: its text content and relevance score. -/
structure Hit where
  content : String
  score : ℚ
deriving Repr, DecidableEq

/-- A fused hit: the original fields plus the final_score and source_type
keys added by PocketFlow._merge_and_rank_results. -/
structure RankedHit where
  content : String
  score : ℚ
  final_score : ℚ
  source_type : String
deriving Repr, DecidableEq

/-- PocketFlow._get_content_key: dedup key of a hit, the first 100 characters
of its content, stripped and lowercased (empty content gives the empty key). -/
def getContentKey (r : RankedHit) : String :=
  pyLower (pyStrip (pyTakeChars 100 r.content))

/-- The loop of PocketFlow._optimize_diversity over results[1:]: keep a hit
when its content key was not seen yet, and stop once 15 hits are kept. -/
def diversityLoop : List RankedHit → List RankedHit → List String → List RankedHit
  | [], acc, _ => acc
  | r :: rs, acc, used =>
    let key := getContentKey r
    let acc2 := if key ∈ used then acc else acc ++ [r]
    let used2 := if key ∈ used then used else used ++ [key]
    if 15 ≤ acc2.length then acc2 else diversityLoop rs acc2 used2

/-- PocketFlow._optimize_diversity: lists of at most three hits are returned
unchanged (no dedup); otherwise the first hit is kept and the rest are
deduplicated by content key. -/
def optimizeDiversity (results : List RankedHit) : List RankedHit :=
  if results.length ≤ 3 then results
  else
    match results with
    | [] => []
    | first :: rest => diversityLoop rest [first] [getContentKey first]

/-- PocketFlow._merge_and_rank_results: rescore knowledge hits by weight 1.3
and web hits by weight 1.0, sort descending by final score (stable), apply
the diversity pass, and truncate to max_results. -/
def mergeAndRankResults (knowledge_results web_results : List Hit) (max_results : Nat) :
    List RankedHit :=
  let kb := knowledge_results.map
    (fun r => RankedHit.mk r.content r.score (r.score * (13/10)) "knowledge_base")
  let web := web_results.map
    (fun r => RankedHit.mk r.content r.score (r.score * 1) "web_search")
  let sorted := (kb ++ web).mergeSort (fun a b => decide (b.final_score ≤ a.final_score))
  (optimizeDiversity sorted).take max_results

theorem diversityLoop_cons (r : RankedHit) (rs : List RankedHit)
    (acc : List RankedHit) (used : List String) :
    diversityLoop (r :: rs) acc used =
      if 15 ≤ (if getContentKey r ∈ used then acc else acc ++ [r]).length
      then (if getContentKey r ∈ used then acc else acc ++ [r])
      else diversityLoop rs (if getContentKey r ∈ used then acc else acc ++ [r])
             (if getContentKey r ∈ used then used else used ++ [getContentKey r]) := rfl

theorem diversityLoop_append (rest : List RankedHit) :
    ∀ acc used, ∃ sub, sub.Sublist rest ∧ diversityLoop rest acc used = acc ++ sub := by
  induction rest with
  | nil =>
    intro acc used
    exact ⟨[], List.Sublist.refl _, (List.append_nil acc).symm⟩
  | cons r rs ih =>
    intro acc used
    rw [diversityLoop_cons]
    by_cases hk : getContentKey r ∈ used
    · simp only [if_pos hk]
      by_cases hlen : 15 ≤ acc.length
      · rw [if_pos hlen]
        exact ⟨[], List.nil_sublist _, (List.append_nil acc).symm⟩
      · rw [if_neg hlen]
        obtain ⟨sub, hsub, heq⟩ := ih acc used
        exact ⟨sub, hsub.cons r, heq⟩
    · simp only [if_neg hk]
      by_cases hlen : 15 ≤ (acc ++ [r]).length
      · rw [if_pos hlen]
        exact ⟨[r], List.Sublist.cons₂ r (List.nil_sublist rs), rfl⟩
      · rw [if_neg hlen]
        obtain ⟨sub, hsub, heq⟩ := ih (acc ++ [r]) (used ++ [getContentKey r])
        refine ⟨r :: sub, List.Sublist.cons₂ r hsub, ?_⟩
        rw [heq, List.append_assoc]
        rfl

theorem diversityLoop_nodup (rest : List RankedHit) :
    ∀ acc used, used = acc.map getContentKey → used.Nodup →
      ((diversityLoop rest acc used).map getContentKey).Nodup := by
  induction rest with
  | nil =>
    intro acc used hused hnd
    rw [show diversityLoop [] acc used = acc from rfl, ← hused]
    exact hnd
  | cons r rs ih =>
    intro acc used hused hnd
    rw [diversityLoop_cons]
    by_cases hk : getContentKey r ∈ used
    · simp only [if_pos hk]
      by_cases hlen : 15 ≤ acc.length
      · rw [if_pos hlen, ← hused]
        exact hnd
      · rw [if_neg hlen]
        exact ih acc used hused hnd
    · simp only [if_neg hk]
      have hmap2 : used ++ [getContentKey r] = (acc ++ [r]).map getContentKey := by
        rw [List.map_append, hused]
        rfl
      have hnd2 : (used ++ [getContentKey r]).Nodup := by
        rw [List.nodup_append]
        refine ⟨hnd, List.nodup_singleton _, ?_⟩
        intro a ha hb
        rw [List.mem_singleton] at hb
        subst hb
        exact hk ha
      by_cases hlen : 15 ≤ (acc ++ [r]).length
      · rw [if_pos hlen, ← hmap2]
        exact hnd2
      · rw [if_neg hlen]
        exact ih (acc ++ [r]) (used ++ [getContentKey r]) hmap2 hnd2

theorem optimizeDiversity_sublist (results : List RankedHit) :
    (optimizeDiversity results).Sublist results := by
  by_cases h : results.length ≤ 3
  · unfold optimizeDiversity
    rw [if_pos h]
  · cases results with
    | nil => exact absurd (by simp) h
    | cons first rest =>
      obtain ⟨sub, hsub, heq⟩ := diversityLoop_append rest [first] [getContentKey first]
      unfold optimizeDiversity
      rw [if_neg h]
      show (diversityLoop rest [first] [getContentKey first]).Sublist (first :: rest)
      rw [heq]
      exact List.Sublist.cons₂ first hsub

theorem optimizeDiversity_nodup (results : List RankedHit) (h : ¬ results.length ≤ 3) :
    ((optimizeDiversity results).map getContentKey).Nodup := by
  cases results with
  | nil => exact absurd (by simp) h
  | cons first rest =>
    unfold optimizeDiversity
    rw [if_neg h]
    show ((diversityLoop rest [first] [getContentKey first]).map getContentKey).Nodup
    exact diversityLoop_nodup rest [first] [getContentKey first] rfl
      (List.nodup_singleton _)

/-- C7 (amended): fuse(A, B, k) has length at most k, is sorted descending by
final score, and returns empty on empty inputs; the dedup guarantee (no two
entries with identical normalized content prefix) holds only when the merged
input holds more than three hits — at three or fewer, the diversity pass
returns the list unchanged and duplicates survive. -/
theorem c7_fuse_amended (A B : List Hit) (k : Nat) :
    (mergeAndRankResults A B k).length ≤ k ∧
    (mergeAndRankResults A B k).Pairwise (fun a b => b.final_score ≤ a.final_score) ∧
    (3 < A.length + B.length → ((mergeAndRankResults A B k).map getContentKey).Nodup) ∧
    (A = [] → B = [] → mergeAndRankResults A B k = []) := by
  refine ⟨?_, ?_, ?_, ?_⟩
  · simp [mergeAndRankResults]
  · have hs := @List.sorted_mergeSort RankedHit
      (fun a b : RankedHit => decide (b.final_score ≤ a.final_score))
      (by
        intro a b c hab hbc
        simp only [decide_eq_true_eq] at hab hbc ⊢
        exact le_trans hbc hab)
      (by
        intro a b
        simp only [Bool.or_eq_true, decide_eq_true_eq]
        exact le_total b.final_score a.final_score)
      ((A.map (fun r => RankedHit.mk r.content r.score (r.score * (13/10)) "knowledge_base")) ++
        (B.map (fun r => RankedHit.mk r.content r.score (r.score * 1) "web_search")))
    have hsp : (((A.map (fun r => RankedHit.mk r.content r.score (r.score * (13/10)) "knowledge_base")) ++
        (B.map (fun r => RankedHit.mk r.content r.score (r.score * 1) "web_search"))).mergeSort
          (fun a b => decide (b.final_score ≤ a.final_score))).Pairwise
        (fun a b : RankedHit => b.final_score ≤ a.final_score) :=
      hs.imp (fun h => of_decide_eq_true h)
    have hsub : (mergeAndRankResults A B k).Sublist
        (((A.map (fun r => RankedHit.mk r.content r.score (r.score * (13/10)) "knowledge_base")) ++
          (B.map (fun r => RankedHit.mk r.content r.score (r.score * 1) "web_search"))).mergeSort
            (fun a b => decide (b.final_score ≤ a.final_score))) := by
      have h1 := List.take_sublist k (optimizeDiversity
        (((A.map (fun r => RankedHit.mk r.content r.score (r.score * (13/10)) "knowledge_base")) ++
          (B.map (fun r => RankedHit.mk r.content r.score (r.score * 1) "web_search"))).mergeSort
            (fun a b => decide (b.final_score ≤ a.final_score))))
      exact h1.trans (optimizeDiversity_sublist _)
    exact hsp.sublist hsub
  · intro hlen
    have hlen2 : ¬ (((A.map (fun r => RankedHit.mk r.content r.score (r.score * (13/10)) "knowledge_base")) ++
        (B.map (fun r => RankedHit.mk r.content r.score (r.score * 1) "web_search"))).mergeSort
          (fun a b => decide (b.final_score ≤ a.final_score))).length ≤ 3 := by
      simpa using hlen
    have hnd := optimizeDiversity_nodup _ hlen2
    have hmapsub : ((mergeAndRankResults A B k).map getContentKey).Sublist
        ((optimizeDiversity
          (((A.map (fun r => RankedHit.mk r.content r.score (r.score * (13/10)) "knowledge_base")) ++
            (B.map (fun r => RankedHit.mk r.content r.score (r.score * 1) "web_search"))).mergeSort
              (fun a b => decide (b.final_score ≤ a.final_score)))).map getContentKey) :=
      (List.take_sublist k _).map getContentKey
    exact hnd.sublist hmapsub
  · intro hA hB
    subst hA hB
    simp [mergeAndRankResults, optimizeDiversity]

/-- C7 (counterexample): two knowledge hits with identical content and no web
hits — three or fewer merged entries, so the diversity pass is skipped and the
fused list keeps two entries with the same normalized content prefix. -/
theorem c7_dedup_counterexample :
    ¬ (((mergeAndRankResults
          [Hit.mk "same content here" (9/10), Hit.mk "same content here" (8/10)] [] 5).map
            getContentKey).Nodup) := by
  have heval : mergeAndRankResults
      [Hit.mk "same content here" (9/10), Hit.mk "same content here" (8/10)] [] 5
      = [RankedHit.mk "same content here" (9/10) ((9:ℚ)/10 * (13/10)) "knowledge_base",
         RankedHit.mk "same content here" (8/10) ((8:ℚ)/10 * (13/10)) "knowledge_base"] := by
    have hsorted : List.Pairwise
        (fun a b : RankedHit => (fun a b : RankedHit => decide (b.final_score ≤ a.final_score)) a b = true)
        [RankedHit.mk "same content here" (9/10) ((9:ℚ)/10 * (13/10)) "knowledge_base",
         RankedHit.mk "same content here" (8/10) ((8:ℚ)/10 * (13/10)) "knowledge_base"] := by
      refine List.Pairwise.cons ?_ (List.pairwise_singleton _ _)
      intro b hb
      rw [List.mem_singleton] at hb
      subst hb
      simp only [decide_eq_true_eq]
      norm_num
    simp only [mergeAndRankResults, List.map_cons, List.map_nil, List.append_nil]
    rw [List.mergeSort_of_sorted hsorted]
    simp [optimizeDiversity]
  rw [heval]
  simp [getContentKey]

/-- C7 witness for the amended theorem: four distinct merged hits are fully
deduplicated, and fusing two empty lists yields the empty list. -/
theorem c7_fuse_amended_witness :
    ((mergeAndRankResults [Hit.mk "aa" 1, Hit.mk "bb" 1]
        [Hit.mk "cc" 1, Hit.mk "dd" 1] 10).map getContentKey).Nodup ∧
    mergeAndRankResults [] [] 4 = [] :=
  ⟨(c7_fuse_amended [Hit.mk "aa" 1, Hit.mk "bb" 1] [Hit.mk "cc" 1, Hit.mk "dd" 1] 10).2.2.1
      (by decide),
   (c7_fuse_amended [] [] 4).2.2.2 rfl rfl⟩

/-! ## The decision engine (services/chat_service.py, ChatService.intelligent_search)

The strategy enum is models.enums.SearchStrategy.  The body of
intelligent_search dispatches on equality with SearchStrategy.AUTO, then
SearchStrategy.HYBRID, then SearchStrategy.WEB_FIRST — a member that does not
exist in models.enums.SearchStrategy, so evaluating that elif raises
AttributeError, which the enclosing try/except swallows, returning the empty
error result.  The Option Bool below encodes the web-search decision, with
Option.none standing for that AttributeError.
-/

/-- models.enums.SearchStrategy. -/
inductive SearchStrategy where
  | knowledge_only
  | web_only
  | hybrid
  | auto
  | none
deriving Repr, DecidableEq

/-- Observable outcome of ChatService.intelligent_search: the returned hit
lists, whether search_service.web_search was invoked, and whether the except
branch (a swallowed exception) produced the result. -/
structure IntelligentSearchResult where
  knowledge_results : List Hit
  web_results : List Hit
  webSearchCalled : Bool
  raisedError : Bool
deriving Repr, DecidableEq

/-- Python max(scores) if scores else 0.0. -/
def pyMaxScore : List ℚ → ℚ
  | [] => 0
  | x :: xs => xs.foldl max x

/-- Python sum(scores) / len(scores) if scores else 0.0. -/
def pyAvgScore (scores : List ℚ) : ℚ :=
  if scores = [] then 0 else scores.sum / (scores.length : ℚ)

/-- ChatService.intelligent_search.  The gateways stand for
knowledge_service.search and search_service.web_search, each mapping the
query to its hit list. -/
def intelligentSearch (query : String) (strategy : SearchStrategy)
    (use_knowledge_base use_web_search : Bool)
    (kbGateway webGateway : String → List Hit) : IntelligentSearchResult :=
  let knowledge_results := if use_knowledge_base then kbGateway query else []
  let decision : Option Bool :=
    if knowledge_results ≠ [] then
      match strategy with
      | SearchStrategy.auto =>
          some (decide (knowledge_results.length < 3) ||
                decide (pyMaxScore (knowledge_results.map Hit.score) < 4/5) ||
                decide (pyAvgScore (knowledge_results.map Hit.score) < 7/10))
      | SearchStrategy.hybrid => some true
      | _ => Option.none
    else some use_web_search
  match decision with
  | Option.none => ⟨[], [], false, true⟩
  | some need_web_search =>
      if need_web_search && use_web_search then
        ⟨knowledge_results, webGateway query, true, false⟩
      else
        ⟨knowledge_results, [], false, false⟩

/-- C2: under knowledge_only with two knowledge hits scored 0.9 and 0.6, the
dispatch reaches the elif on the non-existent member SearchStrategy.WEB_FIRST;
the AttributeError is swallowed by the except branch, so the call returns no
knowledge hits at all (and indeed performs no web call) instead of the two
hits the claim requires. -/
theorem c2_knowledge_only_failing_eval :
    intelligentSearch "query" SearchStrategy.knowledge_only true true
        (fun _ => [Hit.mk "kb hit one" (9/10), Hit.mk "kb hit two" (6/10)])
        (fun _ => [Hit.mk "web hit" (1/2)])
      = ⟨[], [], false, true⟩ := by
  rfl

/-- C3 (counterexample): the same query under auto, once against a single
0.9-scored knowledge hit (web search fires because fewer than three hits) and
once against three 0.9-scored hits (web search does not fire) — the trigger
depends on the knowledge-base results, not on the query text alone. -/
theorem c3_auto_counterexample :
    (intelligentSearch "the query" SearchStrategy.auto true true
        (fun _ => [Hit.mk "a" (9/10)])
        (fun _ => [Hit.mk "w" (1/2)])).webSearchCalled = true
    ∧ (intelligentSearch "the query" SearchStrategy.auto true true
        (fun _ => [Hit.mk "a" (9/10), Hit.mk "b" (9/10), Hit.mk "c" (9/10)])
        (fun _ => [Hit.mk "w" (1/2)])).webSearchCalled = false := by
  constructor
  · rfl
  · have hmax : pyMaxScore [(9:ℚ)/10, 9/10, 9/10] = 9/10 := by
      simp [pyMaxScore, List.foldl]
    have havg : pyAvgScore [(9:ℚ)/10, 9/10, 9/10] = 9/10 := by
      simp [pyAvgScore]
      norm_num
    have h1 : decide ((9:ℚ)/10 < 4/5) = false := by
      rw [decide_eq_false_iff_not]
      norm_num
    have h2 : decide ((9:ℚ)/10 < 7/10) = false := by
      rw [decide_eq_false_iff_not]
      norm_num
    simp [intelligentSearch, hmax, havg, h1, h2]

/-- C3 (amended): under auto, whether a web search fires is a function of the
knowledge-base results and the use_web_search flag alone — with hits present
it fires exactly when there are fewer than three hits, the maximum score is
below 0.8, or the mean score is below 0.7; with no hits it fires exactly when
web search is enabled.  The query text affects the trigger only through the
knowledge gateway. -/
theorem c3_auto_trigger_amended (q1 q2 : String) (kb : List Hit) (uw : Bool)
    (w1 w2 : String → List Hit) :
    ((intelligentSearch q1 SearchStrategy.auto true uw (fun _ => kb) w1).webSearchCalled
      = (intelligentSearch q2 SearchStrategy.auto true uw (fun _ => kb) w2).webSearchCalled) ∧
    (kb ≠ [] →
      (intelligentSearch q1 SearchStrategy.auto true uw (fun _ => kb) w1).webSearchCalled
        = ((decide (kb.length < 3) || decide (pyMaxScore (kb.map Hit.score) < 4/5) ||
            decide (pyAvgScore (kb.map Hit.score) < 7/10)) && uw)) ∧
    (kb = [] →
      (intelligentSearch q1 SearchStrategy.auto true uw (fun _ => kb) w1).webSearchCalled
        = uw) := by
  by_cases hkb : kb = []
  · subst hkb
    have hnil : ∀ (q : String) (w : String → List Hit),
        (intelligentSearch q SearchStrategy.auto true uw (fun _ => []) w).webSearchCalled = uw := by
      intro q w
      cases uw with
      | false => simp [intelligentSearch]
      | true => simp [intelligentSearch]
    exact ⟨by rw [hnil q1 w1, hnil q2 w2], fun h => absurd rfl h, fun _ => hnil q1 w1⟩
  · have hone : ∀ (q : String) (w : String → List Hit),
        (intelligentSearch q SearchStrategy.auto true uw (fun _ => kb) w).webSearchCalled
          = ((decide (kb.length < 3) || decide (pyMaxScore (kb.map Hit.score) < 4/5) ||
              decide (pyAvgScore (kb.map Hit.score) < 7/10)) && uw) := by
      intro q w
      by_cases hneed : ((decide (kb.length < 3) || decide (pyMaxScore (kb.map Hit.score) < 4/5) ||
          decide (pyAvgScore (kb.map Hit.score) < 7/10)) && uw) = true
      · simp [intelligentSearch, hkb, hneed]
      · rw [Bool.not_eq_true] at hneed
        simp [intelligentSearch, hkb, hneed]
    exact ⟨by rw [hone q1 w1, hone q2 w2], fun _ => hone q1 w1, fun h => absurd h hkb⟩

/-- C3 witness: the amended characterization applied to one concrete single-hit
knowledge result and to the empty knowledge result. -/
theorem c3_auto_trigger_amended_witness :
    ((intelligentSearch "q" SearchStrategy.auto true true
        (fun _ => [Hit.mk "a" (9/10)]) (fun _ => [])).webSearchCalled
      = ((decide (([Hit.mk "a" (9/10)] : List Hit).length < 3) ||
          decide (pyMaxScore ([Hit.mk "a" (9/10)].map Hit.score) < 4/5) ||
          decide (pyAvgScore ([Hit.mk "a" (9/10)].map Hit.score) < 7/10)) && true)) ∧
    ((intelligentSearch "q" SearchStrategy.auto true true
        (fun _ => []) (fun _ => [])).webSearchCalled = true) :=
  ⟨(c3_auto_trigger_amended "q" "q" [Hit.mk "a" (9/10)] true
      (fun _ => []) (fun _ => [])).2.1 (by simp),
   (c3_auto_trigger_amended "q" "q" [] true (fun _ => []) (fun _ => [])).2.2 rfl⟩

/-! ## Conversation history persistence (ChatService.save_conversation_history)

The chat_messages table is modelled as a list of rows; appends go to the end.
-/

/-- One row of the chat_messages table (the fields the claims concern). -/
structure MsgRow where
  session_id : String
  role : String
  content : String
  sequence_number : Nat
deriving Repr, DecidableEq

/-- The max-sequence query of save_conversation_history: order the session's
sequence numbers descending and take the first (the maximum), then add one;
an empty session starts at 1. -/
def nextSequence (seqs : List Nat) : Nat :=
  match seqs with
  | [] => 1
  | x :: xs => xs.foldl max x + 1

/-- Sequence numbers currently stored for a session, in insertion order. -/
def sessionSeqs (db : List MsgRow) (session_id : String) : List Nat :=
  (db.filter (fun m => m.session_id == session_id)).map MsgRow.sequence_number

/-- ChatService.save_conversation_history (the MySQL part): read the current
maximum sequence number of the session, store the user message under max+1
and the assistant message under max+2, in one commit. -/
def saveConversationHistory (db : List MsgRow)
    (session_id user_message assistant_message : String) : List MsgRow :=
  let next := nextSequence (sessionSeqs db session_id)
  db ++ [MsgRow.mk session_id "user" user_message next,
         MsgRow.mk session_id "assistant" assistant_message (next + 1)]

/-- N sequential exchange saves into one session. -/
def iterateSaves (db : List MsgRow) (session_id : String) :
    List (String × String) → List MsgRow
  | [] => db
  | (u, a) :: rest => iterateSaves (saveConversationHistory db session_id u a) session_id rest

theorem nextSequence_concat (l : List Nat) (y : Nat) :
    nextSequence (l ++ [y]) = max (nextSequence l) (y + 1) := by
  cases l with
  | nil =>
    simp [nextSequence]
  | cons x xs =>
    simp only [nextSequence, List.cons_append, List.foldl_append, List.foldl]
    rw [Nat.succ_max_succ]

theorem nextSequence_range (k : Nat) : nextSequence (List.range' 1 k) = k + 1 := by
  induction k with
  | zero => rfl
  | succ n ih =>
    rw [List.range'_concat, nextSequence_concat, ih]
    omega

theorem sessionSeqs_save (db : List MsgRow) (sid u a : String) :
    sessionSeqs (saveConversationHistory db sid u a) sid
      = sessionSeqs db sid ++ [nextSequence (sessionSeqs db sid),
          nextSequence (sessionSeqs db sid) + 1] := by
  simp [sessionSeqs, saveConversationHistory, List.filter_append, List.filter]

theorem iterateSaves_seqs (sid : String) (exchanges : List (String × String)) :
    ∀ (db : List MsgRow) (k : Nat), sessionSeqs db sid = List.range' 1 k →
      sessionSeqs (iterateSaves db sid exchanges) sid
        = List.range' 1 (k + 2 * exchanges.length) := by
  induction exchanges with
  | nil =>
    intro db k h
    simpa [iterateSaves] using h
  | cons ex rest ih =>
    intro db k h
    obtain ⟨u, a⟩ := ex
    have hsave : sessionSeqs (saveConversationHistory db sid u a) sid
        = List.range' 1 (k + 2) := by
      rw [sessionSeqs_save, h, nextSequence_range]
      rw [show k + 2 = (k + 1) + 1 from rfl, List.range'_concat,
        show k + 1 = k + 1 from rfl, List.range'_concat]
      simp [List.append_assoc]
      constructor
      · omega
      · omega
    have := ih (saveConversationHistory db sid u a) (k + 2) hsave
    rw [show iterateSaves db sid ((u, a) :: rest)
        = iterateSaves (saveConversationHistory db sid u a) sid rest from rfl, this]
    have harith : k + 2 + 2 * rest.length = k + 2 * ((u, a) :: rest).length := by
      simp [List.length_cons]
      omega
    rw [harith]

/-- C5: starting from a database with no rows for the session, N sequential
exchange saves (the same path is used after interruption) store sequence
numbers exactly 1..2N in insertion order — contiguous, strictly increasing,
no gaps, no duplicates; each save reads the current maximum and appends the
next two consecutive numbers. -/
theorem c5_sequence_numbers (db : List MsgRow) (sid : String)
    (exchanges : List (String × String))
    (h : sessionSeqs db sid = []) :
    sessionSeqs (iterateSaves db sid exchanges) sid
        = List.range' 1 (2 * exchanges.length) ∧
    (sessionSeqs (iterateSaves db sid exchanges) sid).Pairwise (· < ·) ∧
    (sessionSeqs (iterateSaves db sid exchanges) sid).Nodup := by
  have heq := iterateSaves_seqs sid exchanges db 0 (by simpa using h)
  rw [Nat.zero_add] at heq
  refine ⟨heq, ?_, ?_⟩
  · rw [heq]
    exact List.pairwise_lt_range' 1 (2 * exchanges.length)
  · rw [heq]
    exact List.nodup_range' 1 (2 * exchanges.length)

/-- C5 witness: two sequential saves into a fresh session store 1, 2, 3, 4. -/
theorem c5_sequence_numbers_witness :
    sessionSeqs (iterateSaves [] "s1" [("hi", "hello"), ("more", "reply")]) "s1"
        = List.range' 1 (2 * 2) ∧
    (sessionSeqs (iterateSaves [] "s1" [("hi", "hello"), ("more", "reply")]) "s1").Pairwise
        (· < ·) ∧
    (sessionSeqs (iterateSaves [] "s1" [("hi", "hello"), ("more", "reply")]) "s1").Nodup :=
  c5_sequence_numbers [] "s1" [("hi", "hello"), ("more", "reply")] rfl

/-! ## The normal-completion save call (api/chat.py) -/

/-- The keyword parameters accepted by ChatService.save_conversation_history. -/
def saveConversationHistoryParams : List String :=
  ["session_id", "user_message", "assistant_message", "knowledge_sources",
   "web_search_results", "user_request_id", "assistant_request_id"]

/-- The keyword arguments passed by the normal-completion save in
api/chat.py chat_stream. -/
def chatStreamSaveKwargs : List String :=
  ["session_id", "user_message", "assistant_message", "knowledge_sources",
   "web_search_results", "thinking_process"]

/-- A Python call binds only if every keyword argument names an accepted
parameter; an unexpected keyword raises TypeError at the call. -/
def kwargsBind (accepted passed : List String) : Bool :=
  passed.all (fun k => accepted.contains k)

/-- The normal-completion persistence step of chat_stream: the save call is
attempted inside a try/except that logs and continues, so the TypeError
raised by the unexpected thinking_process keyword leaves the database
unchanged. -/
def normalCompletionPersist (db : List MsgRow)
    (session_id user_message full_response : String) : List MsgRow :=
  if kwargsBind saveConversationHistoryParams chatStreamSaveKwargs then
    saveConversationHistory db session_id user_message full_response
  else db

/-- C6: the normal-completion save passes the keyword thinking_process, which
save_conversation_history does not accept, so the call raises TypeError, the
surrounding except swallows it, and nothing is persisted at all — neither the
exchange nor any thinking_process field (the ChatMessage model has no such
column). -/
theorem c6_normal_completion_persists_nothing (db : List MsgRow)
    (session_id user_message full_response : String) :
    kwargsBind saveConversationHistoryParams chatStreamSaveKwargs = false ∧
    normalCompletionPersist db session_id user_message full_response = db := by
  have h : kwargsBind saveConversationHistoryParams chatStreamSaveKwargs = false := by decide
  exact ⟨h, by simp [normalCompletionPersist, h]⟩

/-! ## Stream interruption handling (ChatService.handle_stream_interruption) -/

/-- The fixed interruption marker appended to the stored assistant content. -/
def interruptionMarker : String := "\n\n[此消息已被用户中断]"

/-- ChatService.handle_stream_interruption: persist the accumulated content
with the marker appended, through save_conversation_history, or persist
nothing when the accumulated content is whitespace-only. -/
def handleStreamInterruption (db : List MsgRow)
    (session_id user_message partResponse : String) : List MsgRow :=
  if pyStrip partResponse ≠ "" then
    saveConversationHistory db session_id user_message (partResponse ++ interruptionMarker)
  else db

/-- C8: on cancellation, the accumulated content with the fixed interruption
marker appended is persisted through the same history-append path as a normal
completion (save_conversation_history, which assigns the next two sequence
numbers); if nothing was accumulated, no message is persisted. -/
theorem c8_interruption_persistence (db : List MsgRow)
    (session_id user_message partResponse : String) :
    (pyStrip partResponse ≠ "" →
      handleStreamInterruption db session_id user_message partResponse
        = saveConversationHistory db session_id user_message
            (partResponse ++ interruptionMarker)) ∧
    (pyStrip partResponse = "" →
      handleStreamInterruption db session_id user_message partResponse = db) := by
  constructor
  · intro h
    simp [handleStreamInterruption, h]
  · intro h
    simp [handleStreamInterruption, h]

/-- C8 witness: a cancelled stream with accumulated text persists it with the
marker; a cancelled stream with whitespace-only accumulation persists
nothing. -/
theorem c8_interruption_persistence_witness :
    (handleStreamInterruption [] "s1" "hi" "half an answer"
        = saveConversationHistory [] "s1" "hi" ("half an answer" ++ interruptionMarker)) ∧
    (handleStreamInterruption [] "s1" "hi" "  " = []) :=
  ⟨(c8_interruption_persistence [] "s1" "hi" "half an answer").1 (by decide),
   (c8_interruption_persistence [] "s1" "hi" "  ").2 (by decide)⟩

/-! ## The streaming chat endpoint (api/chat.py, chat_stream)

The generator of chat_stream is modelled as a pure function from the
request's environment — validation outcomes, the upstream unit stream, the
point where the upstream raises, the point where the cancellation flag is
observed, the title generation outcome — to the list of emitted units.
-/

/-- One server-sent unit of the chat stream, by its type tag. -/
inductive StreamUnit where
  | requestId
  | start
  | sessionInfo
  | source
  | content (text : String)
  | think (text : String)
  | titleUpdate (title : String)
  | endTimed (response_time : ℚ)
  | errorUnit (message : String)
  | errorNoType (message : String)
deriving Repr, DecidableEq

/-- Terminal units: the end-with-timing unit and both error shapes (the typed
error of the outer except and the bare error object of the validation
paths). -/
def isTerminal : StreamUnit → Bool
  | StreamUnit.endTimed _ => true
  | StreamUnit.errorUnit _ => true
  | StreamUnit.errorNoType _ => true
  | _ => false

def isTitleUpdate : StreamUnit → Bool
  | StreamUnit.titleUpdate _ => true
  | _ => false

def isContentOrThink : StreamUnit → Bool
  | StreamUnit.content _ => true
  | StreamUnit.think _ => true
  | _ => false

/-- The apology text yielded by the inner except branch. -/
def apologyText : String := "抱歉，生成回复时出现错误。"

/-- Outcome of the generation loop: units forwarded, both channel
accumulators, the observed-cancellation flag, and whether the upstream
raised. -/
structure GenOutcome where
  units : List StreamUnit
  full : String
  thinkAcc : String
  cancelled : Bool
  errored : Bool

/-- Whether the cancellation flag is observed set at the check following the
chunk with the given index (the flag, once set, stays set). -/
def cancelObserved (cancelAt : Option Nat) (i : Nat) : Bool :=
  match cancelAt with
  | Option.none => false
  | some n => decide (n ≤ i)

/-- The async-for of chat_stream over generate_stream_response: accumulate
each received unit into its channel, forward it, then check the cancellation
flag and break if set; genErrorAt is the point at which the upstream raises
(before yielding its next unit), to be caught by the inner except. -/
def genLoop (cancelAt genErrorAt : Option Nat) :
    List (Bool × String) → Nat → String → String → GenOutcome
  | [], i, full, thinkAcc =>
      if genErrorAt = some i then ⟨[], full, thinkAcc, false, true⟩
      else ⟨[], full, thinkAcc, false, false⟩
  | (isThink, text) :: rest, i, full, thinkAcc =>
      if genErrorAt = some i then ⟨[], full, thinkAcc, false, true⟩
      else
        let full2 := if isThink then full else full ++ text
        let think2 := if isThink then thinkAcc ++ text else thinkAcc
        let u := if isThink then StreamUnit.think text else StreamUnit.content text
        if cancelObserved cancelAt i then ⟨[u], full2, think2, true, false⟩
        else
          let r := genLoop cancelAt genErrorAt rest (i + 1) full2 think2
          ⟨u :: r.units, r.full, r.thinkAcc, r.cancelled, r.errored⟩

/-- The inputs and external outcomes of one chat_stream invocation. -/
structure StreamEnv where
  sessionIdProvided : Bool
  isFirst : Bool
  sessionCreateFails : Bool
  sessionFound : Bool
  strategyParseFails : Bool
  chunks : List (Bool × String)
  genErrorAt : Option Nat
  cancelAt : Option Nat
  titleGenFails : Bool
  genTitle : String
  userMessage : String
  responseTime : ℚ

/-- Outcome of the inner try of chat_stream. -/
structure InnerOutcome where
  units : List StreamUnit
  full : String
  thinkAcc : String
  cancelled : Bool

/-- The inner try of chat_stream: strategy parsing and the search (whose
failure, like any exception before the source unit, is caught by the inner
except), the source unit, and the generation loop; on an exception the
apology content unit is yielded and substituted for an empty accumulation. -/
def innerGeneration (env : StreamEnv) : InnerOutcome :=
  if env.strategyParseFails then
    ⟨[StreamUnit.content apologyText], apologyText, "", false⟩
  else
    let g := genLoop env.cancelAt env.genErrorAt env.chunks 0 "" ""
    if g.errored then
      ⟨StreamUnit.source :: g.units ++ [StreamUnit.content apologyText],
        (if g.full = "" then apologyText else g.full), g.thinkAcc, g.cancelled⟩
    else
      ⟨StreamUnit.source :: g.units, g.full, g.thinkAcc, g.cancelled⟩

/-- The fallback title of the title except branch: the first ten characters
of the user message, plus an ellipsis when the message is longer. -/
def fallbackTitle (msg : String) : String :=
  if 10 < pyLen msg then pyTakeChars 10 msg ++ "..." else msg

/-- The persistence block of chat_stream after the loop: on cancellation the
interruption handler persists without yielding; otherwise, with non-blank
content, the save call is attempted (it raises TypeError, see the C6
theorem), and only a successful save would reach the title-update yield of a
first message, with the fallback title on title-generation failure. -/
def saveAndTitleUnits (env : StreamEnv) (wasCancelled : Bool) (full : String) :
    List StreamUnit :=
  if wasCancelled then []
  else if pyStrip full ≠ "" then
    if kwargsBind saveConversationHistoryParams chatStreamSaveKwargs then
      if env.isFirst then
        [if env.titleGenFails then StreamUnit.titleUpdate (fallbackTitle env.userMessage)
         else StreamUnit.titleUpdate env.genTitle]
      else []
    else []
  else []

/-- The full unit sequence emitted by one chat_stream request: request id,
start marker, then the validation / generation / persistence phases, closed
by the end unit, with the outer except emitting the typed error unit. -/
def chatStreamUnits (env : StreamEnv) : List StreamUnit :=
  StreamUnit.requestId :: StreamUnit.start ::
    (if !env.sessionIdProvided then [StreamUnit.errorNoType "请先创建会话"]
     else if env.isFirst && env.sessionCreateFails then
       [StreamUnit.errorUnit "session create failed"]
     else if !env.isFirst && !env.sessionFound then [StreamUnit.errorNoType "会话不存在"]
     else
       (if env.isFirst then [StreamUnit.sessionInfo] else []) ++
       (innerGeneration env).units ++
       saveAndTitleUnits env (innerGeneration env).cancelled (innerGeneration env).full ++
       [StreamUnit.endTimed env.responseTime])

theorem genLoop_units (cancelAt genErrorAt : Option Nat) (chunks : List (Bool × String)) :
    ∀ (i : Nat) (full thinkAcc : String),
      ∀ u ∈ (genLoop cancelAt genErrorAt chunks i full thinkAcc).units,
        isContentOrThink u = true := by
  induction chunks with
  | nil =>
    intro i full thinkAcc u hu
    by_cases h : genErrorAt = some i
    · simp [genLoop, h] at hu
    · simp [genLoop, h] at hu
  | cons c rest ih =>
    intro i full thinkAcc u hu
    obtain ⟨isThink, text⟩ := c
    by_cases h : genErrorAt = some i
    · simp [genLoop, h] at hu
    · rw [show genLoop cancelAt genErrorAt ((isThink, text) :: rest) i full thinkAcc
          = (let full2 := if isThink then full else full ++ text
             let think2 := if isThink then thinkAcc ++ text else thinkAcc
             let u := if isThink then StreamUnit.think text else StreamUnit.content text
             if cancelObserved cancelAt i then ⟨[u], full2, think2, true, false⟩
             else
               let r := genLoop cancelAt genErrorAt rest (i + 1) full2 think2
               ⟨u :: r.units, r.full, r.thinkAcc, r.cancelled, r.errored⟩)
          from by rw [genLoop, if_neg h]] at hu
      by_cases hc : cancelObserved cancelAt i
      · simp only [if_pos hc] at hu
        rw [List.mem_singleton] at hu
        subst hu
        by_cases ht : isThink
        · simp [ht, isContentOrThink]
        · simp [ht, isContentOrThink]
      · simp only [if_neg hc] at hu
        rw [List.mem_cons] at hu
        rcases hu with hu | hu
        · subst hu
          by_cases ht : isThink
          · simp [ht, isContentOrThink]
          · simp [ht, isContentOrThink]
        · exact ih (i + 1) _ _ u hu

theorem innerGeneration_units (env : StreamEnv) :
    ∀ u ∈ (innerGeneration env).units,
      isTerminal u = false ∧ isTitleUpdate u = false := by
  intro u hu
  have hct : isContentOrThink u = true ∨ u = StreamUnit.source := by
    by_cases hp : env.strategyParseFails
    · simp [innerGeneration, hp] at hu
      subst hu
      exact Or.inl rfl
    · simp only [innerGeneration, if_neg hp] at hu
      by_cases he : (genLoop env.cancelAt env.genErrorAt env.chunks 0 "" "").errored
      · simp only [if_pos he, List.mem_cons, List.mem_append, List.mem_singleton] at hu
        rcases hu with (hu | hu) | (hu | hu)
        · exact Or.inr hu
        · exact Or.inl (genLoop_units env.cancelAt env.genErrorAt env.chunks 0 "" "" u hu)
        · subst hu
          exact Or.inl rfl
        · exact absurd hu (List.not_mem_nil u)
      · simp only [if_neg he, List.mem_cons] at hu
        rcases hu with hu | hu
        · exact Or.inr hu
        · exact Or.inl (genLoop_units env.cancelAt env.genErrorAt env.chunks 0 "" "" u hu)
  rcases hct with h | h
  · cases u <;> simp_all [isContentOrThink, isTerminal, isTitleUpdate]
  · subst h
    exact ⟨rfl, rfl⟩

theorem saveAndTitleUnits_units (env : StreamEnv) (wasCancelled : Bool) (full : String) :
    ∀ u ∈ saveAndTitleUnits env wasCancelled full,
      isTerminal u = false ∧ isContentOrThink u = false ∧ env.isFirst = true := by
  intro u hu
  unfold saveAndTitleUnits at hu
  by_cases hc : wasCancelled <;> simp [hc] at hu
  by_cases hs : pyStrip full ≠ "" <;> simp [hs] at hu
  by_cases hk : kwargsBind saveConversationHistoryParams chatStreamSaveKwargs <;>
    simp [hk] at hu
  by_cases hf : env.isFirst <;> simp [hf] at hu
  refine ⟨?_, ?_, by simp [hf]⟩
  · by_cases ht : env.titleGenFails <;> simp [ht] at hu <;> subst hu <;> rfl
  · by_cases ht : env.titleGenFails <;> simp [ht] at hu <;> subst hu <;> rfl

/-- C4: every stream emits the request-id unit, then the start marker, then a
middle section, then exactly one terminal unit (end-with-timing or error) —
also on validation failures and generation errors, so the stream never ends
without a terminal unit; the middle section holds no terminal unit, any
title-update unit in it occurs on a first message only, and all
content/reasoning units precede all title-update units. -/
theorem c4_stream_protocol (env : StreamEnv) :
    ∃ mid t, chatStreamUnits env
        = StreamUnit.requestId :: StreamUnit.start :: (mid ++ [t]) ∧
      isTerminal t = true ∧
      (∀ u ∈ mid, isTerminal u = false) ∧
      (∀ u ∈ mid, isTitleUpdate u = true → env.isFirst = true) ∧
      ∃ m1 m2, mid = m1 ++ m2 ∧ (∀ u ∈ m1, isTitleUpdate u = false) ∧
        (∀ u ∈ m2, isContentOrThink u = false) := by
  by_cases h1 : env.sessionIdProvided
  case neg =>
    refine ⟨[], StreamUnit.errorNoType "请先创建会话", ?_, rfl, by simp, by simp,
      [], [], rfl, by simp, by simp⟩
    simp [chatStreamUnits, h1]
  case pos =>
  by_cases h2 : env.isFirst && env.sessionCreateFails
  case pos =>
    refine ⟨[], StreamUnit.errorUnit "session create failed", ?_, rfl, by simp, by simp,
      [], [], rfl, by simp, by simp⟩
    simp [chatStreamUnits, h1, h2]
  case neg =>
  by_cases h3 : !env.isFirst && !env.sessionFound
  case pos =>
    refine ⟨[], StreamUnit.errorNoType "会话不存在", ?_, rfl, by simp, by simp,
      [], [], rfl, by simp, by simp⟩
    simp [chatStreamUnits, h1, h2, h3]
  case neg =>
    refine ⟨(if env.isFirst then [StreamUnit.sessionInfo] else []) ++
        (innerGeneration env).units ++
        saveAndTitleUnits env (innerGeneration env).cancelled (innerGeneration env).full,
      StreamUnit.endTimed env.responseTime, ?_, rfl, ?_, ?_, ?_⟩
    · simp [chatStreamUnits, h1, h2, h3]
    · intro u hu
      rw [List.mem_append, List.mem_append] at hu
      rcases hu with (hu | hu) | hu
      · by_cases hf : env.isFirst <;> simp [hf] at hu
        subst hu
        rfl
      · exact (innerGeneration_units env u hu).1
      · exact (saveAndTitleUnits_units env _ _ u hu).1
    · intro u hu hti
      rw [List.mem_append, List.mem_append] at hu
      rcases hu with (hu | hu) | hu
      · by_cases hf : env.isFirst <;> simp [hf] at hu
        subst hu
        simp [isTitleUpdate] at hti
      · rw [(innerGeneration_units env u hu).2] at hti
        cases hti
      · exact (saveAndTitleUnits_units env _ _ u hu).2.2
    · refine ⟨(if env.isFirst then [StreamUnit.sessionInfo] else []) ++
          (innerGeneration env).units,
        saveAndTitleUnits env (innerGeneration env).cancelled (innerGeneration env).full,
        (List.append_assoc _ _ _).symm ▸ rfl, ?_, ?_⟩
      · intro u hu
        rw [List.mem_append] at hu
        rcases hu with hu | hu
        · by_cases hf : env.isFirst <;> simp [hf] at hu
          subst hu
          rfl
        · exact (innerGeneration_units env u hu).2
      · intro u hu
        exact (saveAndTitleUnits_units env _ _ u hu).2.1

/-! ## Document chunking (services/document_service.py, DocumentService.split_content)

Text is processed as character lists; String.mk packs the final chunks.
Python raising ValueError (range step zero, when chunk_overlap equals
chunk_size inside the forced slicing) is an Option.none result, which
split_content re-raises.
-/

/-- Python content.split on the two-newline separator: plain left-to-right
non-overlapping split, keeping empty pieces. -/
def splitParas : List Char → List (List Char)
  | [] => [[]]
  | '\n' :: '\n' :: rest => [] :: splitParas rest
  | c :: rest =>
    match splitParas rest with
    | [] => [[c]]
    | h :: t => (c :: h) :: t

/-- The sentence-ending characters of the regex class in _split_sentences. -/
def isSentenceEnd (c : Char) : Bool :=
  c == '.' || c == '!' || c == '?' || c == '。' || c == '！' || c == '？' ||
    c == '；' || c == ';'

/-- re.split on one sentence-ending character followed by greedy whitespace:
the pieces between the matches, separators removed. -/
def splitSentencesCore (l : List Char) : List (List Char) :=
  match l with
  | [] => [[]]
  | c :: rest =>
    if isSentenceEnd c then
      [] :: splitSentencesCore (rest.dropWhile pyIsSpace)
    else
      match splitSentencesCore rest with
      | [] => [[c]]
      | h :: t => (c :: h) :: t
termination_by l.length
decreasing_by
  · simp only [List.length_cons]
    exact Nat.lt_succ_of_le (List.dropWhile_sublist pyIsSpace).length_le
  · simp [List.length_cons]

/-- DocumentService._split_sentences: regex split, then strip each piece and
drop the blank ones. -/
def splitSentences (l : List Char) : List (List Char) :=
  ((splitSentencesCore l).map stripChars).filter (fun s => !s.isEmpty)

/-- Python range(0, stop, step) for step at least 1. -/
def rangeStep (stop step : Nat) : List Nat :=
  (List.range ((stop + step - 1) / step)).map (fun i => i * step)

/-- The forced slicing of one over-long sentence in _split_long_paragraph:
slices of chunk_size characters at offsets stepping by
chunk_size - chunk_overlap, each stripped and kept when non-blank.  Python
range raises ValueError on step zero and yields nothing on a negative
step. -/
def forceSlices (sentence : List Char) (chunk_size chunk_overlap : Nat) :
    Option (List (List Char)) :=
  if chunk_size = chunk_overlap then Option.none
  else if chunk_size < chunk_overlap then some []
  else
    some (((rangeStep sentence.length (chunk_size - chunk_overlap)).map
        (fun i => stripChars ((sentence.drop i).take chunk_size))).filter
      (fun s => !s.isEmpty))

/-- The sentence loop of DocumentService._split_long_paragraph, carrying the
accumulated chunks and the trailing current chunk. -/
def slpLoop (chunk_size chunk_overlap : Nat) :
    List (List Char) → List (List Char) → List Char →
      Option (List (List Char) × List Char)
  | [], chunks, current => some (chunks, current)
  | s :: rest, chunks, current =>
    if chunk_size < current.length + s.length then
      if current ≠ [] then
        slpLoop chunk_size chunk_overlap rest (chunks ++ [stripChars current])
          (if 0 < chunk_overlap ∧ chunk_overlap < current.length then
            current.drop (current.length - chunk_overlap) ++ s
          else s)
      else
        if chunk_size < s.length then
          match forceSlices s chunk_size chunk_overlap with
          | Option.none => Option.none
          | some sl => slpLoop chunk_size chunk_overlap rest (chunks ++ sl) current
        else slpLoop chunk_size chunk_overlap rest chunks s
    else slpLoop chunk_size chunk_overlap rest chunks (current ++ s)

/-- DocumentService._split_long_paragraph. -/
def splitLongParagraph (paragraph : List Char) (chunk_size chunk_overlap : Nat) :
    Option (List (List Char)) :=
  match slpLoop chunk_size chunk_overlap (splitSentences paragraph) [] [] with
  | Option.none => Option.none
  | some (chunks, current) =>
      some (if stripChars current ≠ [] then chunks ++ [stripChars current] else chunks)

/-- The paragraph loop of DocumentService.split_content. -/
def scLoop (chunk_size chunk_overlap : Nat) :
    List (List Char) → List (List Char) → List Char →
      Option (List (List Char) × List Char)
  | [], chunks, current => some (chunks, current)
  | p :: rest, chunks, current =>
    if stripChars p = [] then scLoop chunk_size chunk_overlap rest chunks current
    else if chunk_size < current.length + (stripChars p).length then
      if current ≠ [] then
        scLoop chunk_size chunk_overlap rest (chunks ++ [stripChars current])
          (if 0 < chunk_overlap ∧ chunk_overlap < current.length then
            current.drop (current.length - chunk_overlap) ++ ('\n' :: stripChars p)
          else stripChars p)
      else
        match splitLongParagraph (stripChars p) chunk_size chunk_overlap with
        | Option.none => Option.none
        | some sub =>
            scLoop chunk_size chunk_overlap rest (chunks ++ sub.dropLast) (sub.getLastD [])
    else
      scLoop chunk_size chunk_overlap rest chunks
        (if current ≠ [] then current ++ ('\n' :: '\n' :: stripChars p) else stripChars p)

/-- DocumentService.split_content: blank content gives no chunks; paragraphs
are accumulated into chunks of at most chunk_size with overlap, over-long
paragraphs split by sentence, and finally every chunk whose stripped length
is at most 20 characters is discarded — with no exception for a single
surviving chunk. -/
def splitContent (content : String) (chunk_size chunk_overlap : Nat) :
    Option (List String) :=
  if content.data = [] ∨ stripChars content.data = [] then some []
  else
    match scLoop chunk_size chunk_overlap (splitParas content.data) [] [] with
    | Option.none => Option.none
    | some (chunks, current) =>
        some ((((if stripChars current ≠ [] then chunks ++ [stripChars current]
            else chunks).filter
          (fun c => 20 < (stripChars c).length)).map String.mk))

theorem mem_forceSlices_stripped {s : List Char} {cs co : Nat} {sl : List (List Char)}
    (h : forceSlices s cs co = some sl) :
    ∀ c ∈ sl, stripChars c = c := by
  intro c hc
  unfold forceSlices at h
  by_cases h1 : cs = co
  · rw [if_pos h1] at h
    cases h
  · rw [if_neg h1] at h
    by_cases h2 : cs < co
    · rw [if_pos h2] at h
      cases h
      cases hc
    · rw [if_neg h2] at h
      cases h
      have hc2 := List.mem_of_mem_filter hc
      rw [List.mem_map] at hc2
      obtain ⟨i, _, hi⟩ := hc2
      rw [← hi]
      exact stripChars_idem _

theorem slpLoop_stripped (cs co : Nat) (sentences : List (List Char)) :
    ∀ chunks current, (∀ c ∈ chunks, stripChars c = c) →
      ∀ out cur, slpLoop cs co sentences chunks current = some (out, cur) →
        ∀ c ∈ out, stripChars c = c := by
  induction sentences with
  | nil =>
    intro chunks current hinv out cur h c hc
    rw [show slpLoop cs co [] chunks current = some (chunks, current) from rfl] at h
    cases h
    exact hinv c hc
  | cons s rest ih =>
    intro chunks current hinv out cur h c hc
    rw [show slpLoop cs co (s :: rest) chunks current =
        (if cs < current.length + s.length then
          if current ≠ [] then
            slpLoop cs co rest (chunks ++ [stripChars current])
              (if 0 < co ∧ co < current.length then
                current.drop (current.length - co) ++ s
              else s)
          else
            if cs < s.length then
              match forceSlices s cs co with
              | Option.none => Option.none
              | some sl => slpLoop cs co rest (chunks ++ sl) current
            else slpLoop cs co rest chunks s
        else slpLoop cs co rest chunks (current ++ s)) from rfl] at h
    by_cases h1 : cs < current.length + s.length
    · rw [if_pos h1] at h
      by_cases h2 : current ≠ []
      · rw [if_pos h2] at h
        have hinv2 : ∀ c2 ∈ chunks ++ [stripChars current], stripChars c2 = c2 := by
          intro c2 hc2
          rw [List.mem_append, List.mem_singleton] at hc2
          rcases hc2 with hc2 | hc2
          · exact hinv c2 hc2
          · rw [hc2]
            exact stripChars_idem _
        exact ih _ _ hinv2 out cur h c hc
      · rw [if_neg h2] at h
        by_cases h3 : cs < s.length
        · rw [if_pos h3] at h
          cases hfs : forceSlices s cs co with
          | none => rw [hfs] at h; cases h
          | some sl =>
            rw [hfs] at h
            have hinv2 : ∀ c2 ∈ chunks ++ sl, stripChars c2 = c2 := by
              intro c2 hc2
              rw [List.mem_append] at hc2
              rcases hc2 with hc2 | hc2
              · exact hinv c2 hc2
              · exact mem_forceSlices_stripped hfs c2 hc2
            exact ih _ _ hinv2 out cur h c hc
        · rw [if_neg h3] at h
          exact ih _ _ hinv out cur h c hc
    · rw [if_neg h1] at h
      exact ih _ _ hinv out cur h c hc

theorem splitLongParagraph_stripped {p : List Char} {cs co : Nat} {sub : List (List Char)}
    (h : splitLongParagraph p cs co = some sub) :
    ∀ c ∈ sub, stripChars c = c := by
  intro c hc
  unfold splitLongParagraph at h
  cases hloop : slpLoop cs co (splitSentences p) [] [] with
  | none => rw [hloop] at h; cases h
  | some r =>
    obtain ⟨chunks, current⟩ := r
    rw [hloop] at h
    cases h
    have hchunks := slpLoop_stripped cs co (splitSentences p) [] []
      (by intro c2 hc2; cases hc2) chunks current hloop
    by_cases hcur : stripChars current ≠ []
    · rw [if_pos hcur] at hc
      rw [List.mem_append, List.mem_singleton] at hc
      rcases hc with hc | hc
      · exact hchunks c hc
      · rw [hc]
        exact stripChars_idem _
    · rw [if_neg hcur] at hc
      exact hchunks c hc

theorem scLoop_stripped (cs co : Nat) (paras : List (List Char)) :
    ∀ chunks current, (∀ c ∈ chunks, stripChars c = c) →
      ∀ out cur, scLoop cs co paras chunks current = some (out, cur) →
        ∀ c ∈ out, stripChars c = c := by
  induction paras with
  | nil =>
    intro chunks current hinv out cur h c hc
    rw [show scLoop cs co [] chunks current = some (chunks, current) from rfl] at h
    cases h
    exact hinv c hc
  | cons p rest ih =>
    intro chunks current hinv out cur h c hc
    rw [show scLoop cs co (p :: rest) chunks current =
        (if stripChars p = [] then scLoop cs co rest chunks current
         else if cs < current.length + (stripChars p).length then
           if current ≠ [] then
             scLoop cs co rest (chunks ++ [stripChars current])
               (if 0 < co ∧ co < current.length then
                 current.drop (current.length - co) ++ ('\n' :: stripChars p)
               else stripChars p)
           else
             match splitLongParagraph (stripChars p) cs co with
             | Option.none => Option.none
             | some sub => scLoop cs co rest (chunks ++ sub.dropLast) (sub.getLastD [])
         else
           scLoop cs co rest chunks
             (if current ≠ [] then current ++ ('\n' :: '\n' :: stripChars p)
              else stripChars p)) from rfl] at h
    by_cases h0 : stripChars p = []
    · rw [if_pos h0] at h
      exact ih _ _ hinv out cur h c hc
    · rw [if_neg h0] at h
      by_cases h1 : cs < current.length + (stripChars p).length
      · rw [if_pos h1] at h
        by_cases h2 : current ≠ []
        · rw [if_pos h2] at h
          have hinv2 : ∀ c2 ∈ chunks ++ [stripChars current], stripChars c2 = c2 := by
            intro c2 hc2
            rw [List.mem_append, List.mem_singleton] at hc2
            rcases hc2 with hc2 | hc2
            · exact hinv c2 hc2
            · rw [hc2]
              exact stripChars_idem _
          exact ih _ _ hinv2 out cur h c hc
        · rw [if_neg h2] at h
          cases hsub : splitLongParagraph (stripChars p) cs co with
          | none => rw [hsub] at h; cases h
          | some sub =>
            rw [hsub] at h
            have hinv2 : ∀ c2 ∈ chunks ++ sub.dropLast, stripChars c2 = c2 := by
              intro c2 hc2
              rw [List.mem_append] at hc2
              rcases hc2 with hc2 | hc2
              · exact hinv c2 hc2
              · exact splitLongParagraph_stripped hsub c2
                  ((List.dropLast_sublist sub).subset hc2)
            exact ih _ _ hinv2 out cur h c hc
      · rw [if_neg h1] at h
        exact ih _ _ hinv out cur h c hc

/-- C9 (amended): every chunk returned by split_content is non-empty, already
trimmed of leading and trailing whitespace, and of stripped length strictly
greater than 20 characters; the filter applies even when it leaves no chunk
at all — the claimed only-chunk exception does not exist in the code. -/
theorem c9_split_content_amended (content : String) (chunk_size chunk_overlap : Nat)
    (chunks : List String)
    (h : splitContent content chunk_size chunk_overlap = some chunks) :
    ∀ s ∈ chunks, s ≠ "" ∧ pyStrip s = s ∧ 20 < pyLen (pyStrip s) := by
  intro s hs
  unfold splitContent at h
  by_cases h0 : content.data = [] ∨ stripChars content.data = []
  · rw [if_pos h0] at h
    cases h
    cases hs
  · rw [if_neg h0] at h
    cases hloop : scLoop chunk_size chunk_overlap (splitParas content.data) [] [] with
    | none => rw [hloop] at h; cases h
    | some r =>
      obtain ⟨out, cur⟩ := r
      rw [hloop] at h
      cases h
      rw [List.mem_map] at hs
      obtain ⟨c, hcmem, hcs⟩ := hs
      have hlen := List.of_mem_filter hcmem
      simp only [decide_eq_true_eq] at hlen
      have hcm2 := List.mem_of_mem_filter hcmem
      have hstripped : stripChars c = c := by
        have hout := scLoop_stripped chunk_size chunk_overlap (splitParas content.data)
          [] [] (by intro c2 hc2; cases hc2) out cur hloop
        by_cases hcur : stripChars cur ≠ []
        · rw [if_pos hcur] at hcm2
          rw [List.mem_append, List.mem_singleton] at hcm2
          rcases hcm2 with hcm2 | hcm2
          · exact hout c hcm2
          · rw [hcm2]
            exact stripChars_idem _
        · rw [if_neg hcur] at hcm2
          exact hout c hcm2
      subst hcs
      refine ⟨?_, ?_, ?_⟩
      · intro habs
        have : c = [] := congrArg String.data habs
        rw [this] at hlen
        simp [stripChars] at hlen
      · show String.mk (stripChars c) = String.mk c
        rw [hstripped]
      · show 20 < (stripChars c).length
        exact hlen

/-- C9 witness: a 25-character single-paragraph content is returned as one
chunk, non-empty, trimmed, longer than the 20-character threshold. -/
theorem c9_split_content_amended_witness :
    ("abcdefghijklmnopqrstuvwxy" : String) ≠ "" ∧
    pyStrip "abcdefghijklmnopqrstuvwxy" = "abcdefghijklmnopqrstuvwxy" ∧
    20 < pyLen (pyStrip "abcdefghijklmnopqrstuvwxy") :=
  c9_split_content_amended "abcdefghijklmnopqrstuvwxy" 512 50
    ["abcdefghijklmnopqrstuvwxy"] rfl "abcdefghijklmnopqrstuvwxy" (by simp)

/-- C9 (counterexample): a non-blank 10-character content is its own single
fragment, yet split_content discards it and returns no chunks — the claimed
only-chunk exception to the minimum-length filter is absent. -/
theorem c9_only_chunk_counterexample :
    splitContent "short text" 512 50 = some [] ∧ pyStrip "short text" ≠ "" := by
  exact ⟨rfl, by decide⟩

end SparklinkAI
